import Mathlib

/-!
Verification of the SlitherRL DQN learning engine (Go sources under
internal/ai and internal/game) via a shallow embedding.

Modelling conventions:
* Go `float64` is modelled by `ℚ` (exact arithmetic).  The claims under
  scrutiny are structural/algebraic (which value is passed where, what is
  left unchanged, index bookkeeping), not rounding-dependent.
* A Go runtime panic (out-of-range slice index, `values[0]` on an empty
  slice, division by a zero modulus) is modelled by `Option.none`; fallible
  operations return `Option`.
* Go's `math/rand` draws are modelled by explicit parameters: replay
  sampling takes the permutation produced by `rng.Perm(size)` as an input.
  Randomized Xavier initialization is never observed by any claim (fresh
  weights are always overwritten before being read), so fresh storage is
  modelled with zeros.
* Go slices are modelled by `List ℚ` / `List (List ℚ)`; Go's `copy(dst,
  src)` copies `min (len dst) (len src)` elements, which `copyVec` mirrors.
-/

/-- Go `type Action int` is modelled by `Nat` (the name `Action` itself is
taken by Mathlib): all stored actions are the non-negative constants 0,1,2;
a negative Go index would panic just like an out-of-range one, which the
`Option`-valued lookups model.  `GoStraight Action = iota`. -/
def GoStraight : Nat := 0

/-- The Go constant `TurnLeft` of type `Action` (named apart from the
`Direction.TurnLeft` method). -/
def TurnLeftA : Nat := 1

/-- The Go constant `TurnRight` of type `Action`. -/
def TurnRightA : Nat := 2

/-- `NumActions = 3` -/
def NumActions : Nat := 3

/-- network.go: `QNetwork` struct (the `rng` field, used only by the
randomized initializer, is not part of the model). -/
structure QNetwork where
  W1 : List (List ℚ)
  B1 : List ℚ
  W2 : List (List ℚ)
  B2 : List ℚ
  W3 : List (List ℚ)
  B3 : List ℚ
  InputSize : Nat
  HiddenSize1 : Nat
  HiddenSize2 : Nat
  OutputSize : Nat
  LearningRate : ℚ
deriving DecidableEq

/-- network.go: `forwardCache` struct. -/
structure ForwardCache where
  input : List ℚ
  z1 : List ℚ
  h1 : List ℚ
  z2 : List ℚ
  h2 : List ℚ
deriving DecidableEq

/-- Inner sum of `linearForward`'s column loop:
`sum += input[i] * weights[i][j]` for `i` ranging over `input`.
`none` models the Go panic when `weights` has fewer rows than `input`
or row `i` has no column `j`. -/
def colDot : List ℚ → List (List ℚ) → Nat → Option ℚ
  | [], _, _ => some 0
  | _ :: _, [], _ => none
  | x :: xs, row :: rows, j =>
    match row[j]? with
    | none => none
    | some w => (colDot xs rows j).map fun rest => x * w + rest

/-- network.go `linearForward`, looping over the output entries
(`j`-th entry is `bias[j] + Σ_i input[i] * weights[i][j]`). -/
def linearForwardAux (input : List ℚ) (weights : List (List ℚ)) :
    List ℚ → Nat → Option (List ℚ)
  | [], _ => some []
  | b :: bs, j =>
    match colDot input weights j with
    | none => none
    | some s =>
      (linearForwardAux input weights bs (j + 1)).map fun rest => (b + s) :: rest

/-- network.go: `linearForward` computes `y = xW + b`. -/
def linearForward (input : List ℚ) (weights : List (List ℚ)) (bias : List ℚ) :
    Option (List ℚ) :=
  linearForwardAux input weights bias 0

/-- network.go: `relu` (`result[i] = v` when `v > 0`, else the zero value). -/
def relu (x : List ℚ) : List ℚ :=
  x.map fun v => if v > 0 then v else 0

/-- network.go: `reluDerivative`. -/
def reluDerivative (z : List ℚ) : List ℚ :=
  z.map fun v => if v > 0 then 1 else 0

/-- network.go: `Forward` — three linear layers, ReLU on the two hidden
ones, no activation on the output. -/
def QNetwork.Forward (n : QNetwork) (input : List ℚ) : Option (List ℚ) := do
  let z1 ← linearForward input n.W1 n.B1
  let h1 := relu z1
  let z2 ← linearForward h1 n.W2 n.B2
  let h2 := relu z2
  linearForward h2 n.W3 n.B3

/-- network.go: `ForwardWithCache` — same computation, returning the
pre- and post-activation vectors of both hidden layers plus the input. -/
def QNetwork.ForwardWithCache (n : QNetwork) (input : List ℚ) :
    Option (List ℚ × ForwardCache) := do
  let z1 ← linearForward input n.W1 n.B1
  let h1 := relu z1
  let z2 ← linearForward h1 n.W2 n.B2
  let h2 := relu z2
  let output ← linearForward h2 n.W3 n.B3
  some (output, { input := input, z1 := z1, h1 := h1, z2 := z2, h2 := h2 })

/-- network.go: `elementMul` ranges over `a` and indexes `b`; Go panics when
`b` is shorter than `a`. -/
def elementMul : List ℚ → List ℚ → Option (List ℚ)
  | [], _ => some []
  | _ :: _, [] => none
  | x :: xs, y :: ys => (elementMul xs ys).map fun r => (x * y) :: r

/-- `linearBackward`'s gradient w.r.t. the input: `dInput[i] = Σ_j
weights[i][j] * dOutput[j]` over one row. -/
def dotRow : List ℚ → List ℚ → Option ℚ
  | [], _ => some 0
  | _ :: _, [] => none
  | d :: ds, w :: ws => (dotRow ds ws).map fun rest => w * d + rest

/-- `linearBackward`'s `dInput` vector (one entry per input entry; Go panics
when `weights` runs out of rows first). -/
def dInputList : List ℚ → List (List ℚ) → List ℚ → Option (List ℚ)
  | [], _, _ => some []
  | _ :: _, [], _ => none
  | _ :: xs, row :: rows, dOut =>
    match dotRow dOut row with
    | none => none
    | some v => (dInputList xs rows dOut).map fun vs => v :: vs

/-- `linearBackward`'s weight update on one row:
`weights[i][j] -= lr * input[i] * dOutput[j]` for `j` over `dOutput`. -/
def updateCols (lr xi : ℚ) : List ℚ → List ℚ → Option (List ℚ)
  | [], row => some row
  | _ :: _, [] => none
  | d :: ds, w :: ws => (updateCols lr xi ds ws).map fun rest => (w - lr * xi * d) :: rest

/-- `linearBackward`'s weight update over the rows touched by `input`
(rows beyond `input` are untouched, missing rows panic). -/
def updateRows (lr : ℚ) : List ℚ → List (List ℚ) → List ℚ → Option (List (List ℚ))
  | [], w, _ => some w
  | _ :: _, [], _ => none
  | x :: xs, row :: rows, dOut =>
    match updateCols lr x dOut row with
    | none => none
    | some r => (updateRows lr xs rows dOut).map fun rs => r :: rs

/-- `linearBackward`'s bias update: `bias[j] -= lr * dOutput[j]`. -/
def updateBiasList (lr : ℚ) : List ℚ → List ℚ → Option (List ℚ)
  | bias, [] => some bias
  | [], _ :: _ => none
  | b :: bs, d :: ds => (updateBiasList lr bs ds).map fun rest => (b - lr * d) :: rest

/-- network.go: `linearBackward` — computes the gradient w.r.t. the input
from the pre-update weights, then (when `update`) applies the SGD update to
weights and bias.  Returns `(dInput, weights, bias)`. -/
def linearBackward (lr : ℚ) (input : List ℚ) (weights : List (List ℚ))
    (bias : List ℚ) (dOutput : List ℚ) (update : Bool) :
    Option (List ℚ × List (List ℚ) × List ℚ) := do
  let dInput ← dInputList input weights dOutput
  if update then
    let w ← updateRows lr input weights dOutput
    let b ← updateBiasList lr bias dOutput
    some (dInput, w, b)
  else
    some (dInput, weights, bias)

/-- network.go: `Backward` — single-action TD backpropagation with
immediate in-place parameter update, returned here as the new network.
`none` models the panics on `dOutput[targetAction]`/`output[targetAction]`. -/
def QNetwork.Backward (n : QNetwork) (cache : ForwardCache) (output : List ℚ)
    (targetAction : Nat) (targetQ : ℚ) : Option QNetwork := do
  let outVal ← output[targetAction]?
  if targetAction < n.OutputSize then
    let dOutput := (List.range n.OutputSize).map fun j =>
      if j = targetAction then outVal - targetQ else 0
    let r3 ← linearBackward n.LearningRate cache.h2 n.W3 n.B3 dOutput true
    let dZ2 ← elementMul r3.1 (reluDerivative cache.z2)
    let r2 ← linearBackward n.LearningRate cache.h1 n.W2 n.B2 dZ2 true
    let dZ1 ← elementMul r2.1 (reluDerivative cache.z1)
    let r1 ← linearBackward n.LearningRate cache.input n.W1 n.B1 dZ1 true
    some { n with W1 := r1.2.1, B1 := r1.2.2, W2 := r2.2.1, B2 := r2.2.2,
                  W3 := r3.2.1, B3 := r3.2.2 }
  else
    none

/-- Go's builtin `copy(dst, src)`: copies `min (len dst) (len src)`
elements of `src` into the front of `dst`, leaving any tail of `dst`. -/
def copyVec (dst src : List ℚ) : List ℚ :=
  src.take dst.length ++ dst.drop src.length

/-- network.go: `copyMatrix` — `copy(dst[i], src[i])` for each row of
`src`; Go panics when `dst` has fewer rows than `src`. -/
def copyMatrix : List (List ℚ) → List (List ℚ) → Option (List (List ℚ))
  | d, [] => some d
  | [], _ :: _ => none
  | d :: ds, s :: ss => (copyMatrix ds ss).map fun r => copyVec d s :: r

/-- network.go: `CopyFrom` — copies the six weight/bias stores from
`other`; dimensions and learning rate of the receiver are kept. -/
def QNetwork.CopyFrom (n other : QNetwork) : Option QNetwork := do
  let w1 ← copyMatrix n.W1 other.W1
  let w2 ← copyMatrix n.W2 other.W2
  let w3 ← copyMatrix n.W3 other.W3
  some { n with W1 := w1, B1 := copyVec n.B1 other.B1,
                W2 := w2, B2 := copyVec n.B2 other.B2,
                W3 := w3, B3 := copyVec n.B3 other.B3 }

/-- `make([]float64, k)`: a zero-filled vector. -/
def zeroVec (k : Nat) : List ℚ := List.replicate k 0

/-- Fresh storage of a `NewQNetwork` weight matrix.  The source draws
Xavier-random values here; every claim only ever reads these entries after
`CopyFrom` has overwritten them, so the model uses zeros. -/
def zeroMatrix (r c : Nat) : List (List ℚ) :=
  List.replicate r (zeroVec c)

/-- network.go: `Clone` — a `NewQNetwork` with the same dimensions and
learning rate whose storage is then overwritten via `CopyFrom`. -/
def QNetwork.Clone (n : QNetwork) : Option QNetwork :=
  QNetwork.CopyFrom
    { W1 := zeroMatrix n.InputSize n.HiddenSize1, B1 := zeroVec n.HiddenSize1,
      W2 := zeroMatrix n.HiddenSize1 n.HiddenSize2, B2 := zeroVec n.HiddenSize2,
      W3 := zeroMatrix n.HiddenSize2 n.OutputSize, B3 := zeroVec n.OutputSize,
      InputSize := n.InputSize, HiddenSize1 := n.HiddenSize1,
      HiddenSize2 := n.HiddenSize2, OutputSize := n.OutputSize,
      LearningRate := n.LearningRate }
    n

/-- network.go: `Max` — `values[0]` then a running maximum; `none` models
the panic on an empty slice. -/
def listMax : List ℚ → Option ℚ
  | [] => none
  | v :: rest => some (rest.foldl (fun m x => if x > m then x else m) v)

/-- Shape well-formedness of a network: the stored matrices and biases
match the four dimension fields (§3 data-model invariant). -/
def QNetwork.WF (n : QNetwork) : Prop :=
  n.W1.length = n.InputSize ∧ (∀ r ∈ n.W1, r.length = n.HiddenSize1) ∧
    n.B1.length = n.HiddenSize1 ∧
  n.W2.length = n.HiddenSize1 ∧ (∀ r ∈ n.W2, r.length = n.HiddenSize2) ∧
    n.B2.length = n.HiddenSize2 ∧
  n.W3.length = n.HiddenSize2 ∧ (∀ r ∈ n.W3, r.length = n.OutputSize) ∧
    n.B3.length = n.OutputSize

instance (n : QNetwork) : Decidable n.WF := by
  unfold QNetwork.WF; infer_instance

/-- replay.go: `Experience` (state/next-state vectors, relative action,
reward, terminal flag). -/
structure Experience where
  State : List ℚ
  Action : Nat
  Reward : ℚ
  NextState : List ℚ
  Done : Bool
deriving DecidableEq

/-- The Go zero value of `Experience` (nil slices, zero scalars): the
content of unwritten replay-buffer slots. -/
instance : Inhabited Experience := ⟨⟨[], 0, 0, [], false⟩⟩

/-- replay.go: `ReplayBuffer` (the `rng` field is modelled by passing each
`Sample` call the permutation the generator would produce). -/
structure ReplayBuffer where
  buffer : List Experience
  capacity : Nat
  position : Nat
  size : Nat
deriving DecidableEq

/-- replay.go: `NewReplayBuffer` — zero-valued storage of length
`capacity`, cursor and count at zero. -/
def NewReplayBuffer (capacity : Nat) : ReplayBuffer :=
  { buffer := List.replicate capacity default, capacity := capacity,
    position := 0, size := 0 }

/-- replay.go: `Add` — writes at the cursor, advances it modulo capacity,
counts up to capacity.  The source's defensive slice copies are identities
on immutable values.  (With capacity 0 the source panics; the theorems
assume positive capacity.) -/
def ReplayBuffer.Add (rb : ReplayBuffer) (exp : Experience) : ReplayBuffer :=
  { rb with
    buffer := rb.buffer.set rb.position exp
    position := (rb.position + 1) % rb.capacity
    size := if rb.size < rb.capacity then rb.size + 1 else rb.size }

/-- replay.go: `Sample` — truncates the batch size to the count, then reads
the buffer at the first `batchSize` entries of `rng.Perm(size)` (passed
here as `perm`). -/
def ReplayBuffer.Sample (rb : ReplayBuffer) (perm : List Nat) (batchSize : Nat) :
    List Experience :=
  let bs := if batchSize > rb.size then rb.size else batchSize
  (perm.take bs).map fun idx => rb.buffer.getD idx default

/-- replay.go: `Size`. -/
def ReplayBuffer.Size (rb : ReplayBuffer) : Nat := rb.size

/-- agent source: `DQNAgent` (the `rng` field drives only action
exploration, which no claim touches). -/
structure DQNAgent where
  PolicyNet : QNetwork
  TargetNet : QNetwork
  ReplayBuffer : ReplayBuffer
  Gamma : ℚ
  Epsilon : ℚ
  EpsilonMin : ℚ
  EpsilonDecay : ℚ
  BatchSize : Nat
  StepCount : Nat
  TargetUpdate : Nat
  TrainInterval : Nat
deriving DecidableEq

/-- agent source: `trainOnExperience` — TD target (`reward` if done, else
`reward + γ·max(TargetNet.Forward(nextState))`), cached forward pass,
half-squared-error loss for logging, then `Backward` which mutates the
policy network. -/
def DQNAgent.trainOnExperience (a : DQNAgent) (exp : Experience) :
    Option (ℚ × DQNAgent) := do
  let targetQ ←
    if exp.Done then
      some exp.Reward
    else do
      let nextQValues ← a.TargetNet.Forward exp.NextState
      let maxNextQ ← listMax nextQValues
      some (exp.Reward + a.Gamma * maxNextQ)
  let oc ← a.PolicyNet.ForwardWithCache exp.State
  let currentQ ← oc.1[exp.Action]?
  let loss := (currentQ - targetQ) * (currentQ - targetQ) * (1 / 2)
  let pnet ← a.PolicyNet.Backward oc.2 oc.1 exp.Action targetQ
  some (loss, { a with PolicyNet := pnet })

/-- The `for _, exp := range batch` loss-accumulation loop in `Train`. -/
def goBatchLoop (acc : ℚ) (a : DQNAgent) : List Experience → Option (ℚ × DQNAgent)
  | [] => some (acc, a)
  | exp :: rest =>
    match a.trainOnExperience exp with
    | none => none
    | some (loss, a2) => goBatchLoop (acc + loss) a2 rest

/-- agent source: `UpdateTargetNetwork` — `TargetNet.CopyFrom(PolicyNet)`. -/
def DQNAgent.UpdateTargetNetwork (a : DQNAgent) : Option DQNAgent :=
  (a.TargetNet.CopyFrom a.PolicyNet).map fun tn => { a with TargetNet := tn }

/-- agent source: `Train` — increments the step counter, early-returns 0 on
an under-filled buffer or an off-interval step, otherwise trains
per-sample over a sampled batch, periodically syncs the target network and
returns the mean recorded loss. -/
def DQNAgent.Train (a0 : DQNAgent) (perm : List Nat) : Option (ℚ × DQNAgent) :=
  let a := { a0 with StepCount := a0.StepCount + 1 }
  if a.ReplayBuffer.Size < a.BatchSize then
    some (0, a)
  else if a.StepCount % a.TrainInterval ≠ 0 then
    some (0, a)
  else
    let batch := a.ReplayBuffer.Sample perm a.BatchSize
    match goBatchLoop 0 a batch with
    | none => none
    | some (totalLoss, a1) =>
      (if a.StepCount % a.TargetUpdate = 0 then a1.UpdateTargetNetwork else some a1).map
        fun a2 => (totalLoss / (batch.length : ℚ), a2)

/-- agent source: `DecayEpsilon` — multiply by the decay factor, clamp from
below at `EpsilonMin`. -/
def DQNAgent.DecayEpsilon (a : DQNAgent) : DQNAgent :=
  let e := a.Epsilon * a.EpsilonDecay
  if e < a.EpsilonMin then { a with Epsilon := a.EpsilonMin }
  else { a with Epsilon := e }

/-- agent source: `SetEpsilon`. -/
def DQNAgent.SetEpsilon (a : DQNAgent) (eps : ℚ) : DQNAgent :=
  { a with Epsilon := eps }

/-- snake.go: `Direction` (Go int constants `Up=0, Down=1, Left=2, Right=3`). -/
inductive Direction where
  | Up
  | Down
  | Left
  | Right
deriving DecidableEq

/-- The Go integer value of a `Direction` constant (iota order). -/
def Direction.toNat : Direction → Nat
  | .Up => 0
  | .Down => 1
  | .Left => 2
  | .Right => 3

/-- snake.go: `TurnLeft` (counter-clockwise quarter turn). -/
def Direction.TurnLeft : Direction → Direction
  | .Up => .Left
  | .Left => .Down
  | .Down => .Right
  | .Right => .Up

/-- snake.go: `TurnRight` (clockwise quarter turn). -/
def Direction.TurnRight : Direction → Direction
  | .Up => .Right
  | .Right => .Down
  | .Down => .Left
  | .Left => .Up

/-- Alias used in signatures of `Snake` methods, where the bare name
`Direction` would resolve to the `Snake.Direction` projection. -/
abbrev Dir : Type := Direction

/-- snake.go: `Position` (board coordinate, Go ints). -/
structure Position where
  X : Int
  Y : Int
deriving DecidableEq

/-- snake.go: `Position.Add`. -/
def Position.add (p : Position) (dx dy : Int) : Position :=
  { X := p.X + dx, Y := p.Y + dy }

/-- snake.go: `Snake` (head is `Body[0]`). -/
structure Snake where
  ID : Int
  Body : List Position
  Direction : Direction
  Alive : Bool
  Score : Int
  Grew : Bool
deriving DecidableEq

/-- snake.go: `NextHead` — the head advanced one cell in `dir`; `none`
models the `Body[0]` panic on an empty body.  (The Go `switch` covers all
four constants, so its trailing `return head` is unreachable.) -/
def Snake.NextHead (s : Snake) (dir : Dir) : Option Position :=
  s.Body.head?.map fun head =>
    match dir with
    | .Up => head.add 0 (-1)
    | .Down => head.add 0 1
    | .Left => head.add (-1) 0
    | .Right => head.add 1 0

/-- snake.go: `ContainsPosition` (optionally skipping the head). -/
def Snake.ContainsPosition (s : Snake) (pos : Position) (excludeHead : Bool) : Bool :=
  (if excludeHead then s.Body.drop 1 else s.Body).any fun p => decide (p = pos)

/-- game source: `Food`. -/
structure Food where
  Position : Position
  Active : Bool
deriving DecidableEq

/-- game source: `GameState` (the two snakes of the Go array `[2]*Snake`
are modelled as a pair). -/
structure GameState where
  Width : Int
  Height : Int
  Snakes : Snake × Snake
  Food : Food
  Turn : Int
  GameOver : Bool
  Winner : Int
deriving DecidableEq

/-- Indexing the two-snake array `[2]*Snake`. -/
def pairAt (snakes : Snake × Snake) (i : Fin 2) : Snake :=
  if i.val = 0 then snakes.1 else snakes.2

/-- `state.Snakes[i]` for `i ∈ {0,1}`. -/
def snakeAt (state : GameState) (i : Fin 2) : Snake :=
  pairAt state.Snakes i

/-- `1 - snakeID` for `snakeID ∈ {0,1}`. -/
def otherId (i : Fin 2) : Fin 2 :=
  ⟨1 - i.val, by omega⟩

/-- collision.go: `CheckWallCollision`. -/
def CheckWallCollision (pos : Position) (width height : Int) : Bool :=
  pos.X < 0 || pos.X ≥ width || pos.Y < 0 || pos.Y ≥ height

/-- collision.go: `IsDangerPosition` — wall, own body (head excluded), or a
living opponent's body (head included). -/
def IsDangerPosition (pos : Position) (snakeID : Fin 2) (snakes : Snake × Snake)
    (width height : Int) : Bool :=
  CheckWallCollision pos width height ||
    (pairAt snakes snakeID).ContainsPosition pos true ||
    (let otherSnake := pairAt snakes (otherId snakeID)
     otherSnake.Alive && otherSnake.ContainsPosition pos false)

/-- state.go: `isDanger` — `IsDangerPosition` on the state's snakes and
board size. -/
def isDanger (pos : Position) (snakeID : Fin 2) (state : GameState) : Bool :=
  IsDangerPosition pos snakeID state.Snakes state.Width state.Height

/-- state.go: `isDangerExtended` — step-1 danger short-circuits, else the
step-2 cell is checked. -/
def isDangerExtended (step1 step2 : Position) (snakeID : Fin 2) (state : GameState) : Bool :=
  if isDanger step1 snakeID state then true
  else isDanger step2 snakeID state

/-- state.go: `boolToFloat`. -/
def boolToFloat (b : Bool) : ℚ :=
  if b then 1 else 0

/-- state.go: `ManhattanDistance` (with the manual absolute values). -/
def ManhattanDistance (p1 p2 : Position) : Int :=
  let dx := p1.X - p2.X
  let dy := p1.Y - p2.Y
  (if dx < 0 then -dx else dx) + (if dy < 0 then -dy else dy)

/-- state.go: `ActionToDirection` (Go `switch` with fall-through default
returning the current direction). -/
def ActionToDirection (currentDir : Direction) (action : Nat) : Direction :=
  if action = GoStraight then currentDir
  else if action = TurnLeftA then currentDir.TurnLeft
  else if action = TurnRightA then currentDir.TurnRight
  else currentDir

/-- state.go: `StateSize = 22`. -/
def StateSize : Nat := 22

/-- The temporary one-cell snake `&Snake{Body: []Position{p}}` used by
`EncodeState` for the two-step lookahead (all other fields Go zero values). -/
def mkTempSnake (p : Position) : Snake :=
  { ID := 0, Body := [p], Direction := .Up, Alive := false, Score := 0, Grew := false }

/-- state.go: `EncodeState` — the 22-entry feature vector from the
perspective of `snakeID`; all zeros for a dead snake.  `none` models the
`Body[0]` panics on empty bodies.  Layout: [0-2] one-step danger flags,
[3-6] one-hot direction, [7-10] food-relative flags, [11-14]
opponent-relative flags, [15] opponent-head proximity, [16] nearest
opponent-body proximity, [17] own normalized length, [18] opponent
normalized length, [19-21] two-step danger flags. -/
def EncodeState (state : GameState) (snakeID : Fin 2) : Option (List ℚ) :=
  let snake := snakeAt state snakeID
  let otherSnake := snakeAt state (otherId snakeID)
  if snake.Alive = false then
    some (List.replicate StateSize 0)
  else do
    let head ← snake.Body.head?
    let dir := snake.Direction
    let straightPos ← snake.NextHead dir
    let leftPos ← snake.NextHead dir.TurnLeft
    let rightPos ← snake.NextHead dir.TurnRight
    let dangerFlags := [boolToFloat (isDanger straightPos snakeID state),
                        boolToFloat (isDanger leftPos snakeID state),
                        boolToFloat (isDanger rightPos snakeID state)]
    let dirOneHot := (List.range 4).map fun k => if k = dir.toNat then (1 : ℚ) else 0
    let foodFlags :=
      if state.Food.Active then
        [boolToFloat (state.Food.Position.Y < head.Y),
         boolToFloat (state.Food.Position.Y > head.Y),
         boolToFloat (state.Food.Position.X < head.X),
         boolToFloat (state.Food.Position.X > head.X)]
      else [0, 0, 0, 0]
    let oppFlags ←
      if otherSnake.Alive then
        otherSnake.Body.head?.map fun oppHead =>
          [boolToFloat (oppHead.Y < head.Y), boolToFloat (oppHead.Y > head.Y),
           boolToFloat (oppHead.X < head.X), boolToFloat (oppHead.X > head.X)]
      else some [0, 0, 0, 0]
    let f15 ←
      if otherSnake.Alive then
        otherSnake.Body.head?.map fun oppHead =>
          1 - ((ManhattanDistance head oppHead : Int) : ℚ) /
                ((state.Width + state.Height : Int) : ℚ)
      else some 0
    let f16 : ℚ :=
      if otherSnake.Alive then
        let maxDist : ℚ := ((state.Width + state.Height : Int) : ℚ)
        let minDist : ℚ := otherSnake.Body.foldl
          (fun m segment =>
            let d : ℚ := ((ManhattanDistance head segment : Int) : ℚ)
            if d < m then d else m)
          maxDist
        1 - minDist / maxDist
      else 0
    let maxLength : ℚ := ((Int.tdiv (state.Width * state.Height) 2 : Int) : ℚ)
    let f17 : ℚ := (snake.Body.length : ℚ) / maxLength
    let f18 : ℚ := if otherSnake.Alive then (otherSnake.Body.length : ℚ) / maxLength else 0
    let straight2 ← (mkTempSnake straightPos).NextHead dir
    let left2 ← (mkTempSnake leftPos).NextHead dir.TurnLeft
    let right2 ← (mkTempSnake rightPos).NextHead dir.TurnRight
    let extFlags := [boolToFloat (isDangerExtended straightPos straight2 snakeID state),
                     boolToFloat (isDangerExtended leftPos left2 snakeID state),
                     boolToFloat (isDangerExtended rightPos right2 snakeID state)]
    some (dangerFlags ++ dirOneHot ++ foodFlags ++ oppFlags ++
          [f15, f16, f17, f18] ++ extFlags)

/-- network.go: `NetworkWeights` — the current on-disk record. -/
structure NetworkWeights where
  W1 : List (List ℚ)
  B1 : List ℚ
  W2 : List (List ℚ)
  B2 : List ℚ
  W3 : List (List ℚ)
  B3 : List ℚ
  InputSize : Nat
  HiddenSize1 : Nat
  HiddenSize2 : Nat
  OutputSize : Nat
  LearningRate : ℚ
deriving DecidableEq

/-- network.go: `legacyNetworkWeights` — the old record with unused 2D bias
fields next to the `B*Vec` vectors actually used. -/
structure LegacyNetworkWeights where
  W1 : List (List ℚ)
  B1 : List (List ℚ)
  B1Vec : List ℚ
  W2 : List (List ℚ)
  B2 : List (List ℚ)
  B2Vec : List ℚ
  W3 : List (List ℚ)
  B3 : List (List ℚ)
  B3Vec : List ℚ
  InputSize : Nat
  HiddenSize1 : Nat
  HiddenSize2 : Nat
  OutputSize : Nat
  LearningRate : ℚ
deriving DecidableEq

/-- A saved-model file, abstracted to the outcomes the gob decoders can
produce on it: whether it can be opened, and what each of the two schemas
decodes it to (if anything). -/
structure GobFile where
  readable : Bool
  asCurrent : Option NetworkWeights
  asLegacy : Option LegacyNetworkWeights
deriving DecidableEq

/-- The `NetworkWeights` a legacy record upgrades to (the tail of
`LoadNetwork`'s legacy branch): matrices as-is, biases from the `B*Vec`
fields. -/
def legacyToWeights (lw : LegacyNetworkWeights) : NetworkWeights :=
  { W1 := lw.W1, B1 := lw.B1Vec, W2 := lw.W2, B2 := lw.B2Vec,
    W3 := lw.W3, B3 := lw.B3Vec, InputSize := lw.InputSize,
    HiddenSize1 := lw.HiddenSize1, HiddenSize2 := lw.HiddenSize2,
    OutputSize := lw.OutputSize, LearningRate := lw.LearningRate }

/-- The `QNetwork` built from a decoded record at the end of
`LoadNetwork`. -/
def netOfWeights (w : NetworkWeights) : QNetwork :=
  { W1 := w.W1, B1 := w.B1, W2 := w.W2, B2 := w.B2, W3 := w.W3, B3 := w.B3,
    InputSize := w.InputSize, HiddenSize1 := w.HiddenSize1,
    HiddenSize2 := w.HiddenSize2, OutputSize := w.OutputSize,
    LearningRate := w.LearningRate }

/-- network.go: `LoadNetwork` — open the file, try the current schema,
else rewind and try the legacy schema, else fail (`none` = error
returned). -/
def LoadNetwork (f : GobFile) : Option QNetwork :=
  if f.readable then
    match f.asCurrent with
    | some w => some (netOfWeights w)
    | none =>
      match f.asLegacy with
      | some lw => some (netOfWeights (legacyToWeights lw))
      | none => none
  else none

/-- agent source: `Load` — on any `LoadNetwork` error the error is returned
with the agent untouched; on success the policy network is replaced and the
target network reset to a fresh clone.  Result: `some (agent after the
call, whether an error was returned)`; `none` models a panic inside
`Clone` on a malformed record. -/
def DQNAgent.Load (a : DQNAgent) (f : GobFile) : Option (DQNAgent × Bool) :=
  match LoadNetwork f with
  | none => some (a, true)
  | some net =>
    net.Clone.map fun tn => ({ a with PolicyNet := net, TargetNet := tn }, false)

/-- Claim-side TD target (§4.4): `reward` alone if terminal, else
`reward + γ · max(TargetNetwork.Forward(nextState))`. -/
def specTDTarget (gamma : ℚ) (tnet : QNetwork) (exp : Experience) : Option ℚ :=
  if exp.Done then some exp.Reward
  else do
    let nq ← tnet.Forward exp.NextState
    let m ← listMax nq
    some (exp.Reward + gamma * m)

/-- Claim-side batch protocol (§4.4): process the transitions in batch
order; for each one compute the TD target against the fixed target
network, call `Backward` once on the current policy network (mutating it
before the next transition is processed), and record the squared TD error
of the pre-update output.  Returns the recorded squared errors and the
final policy network. -/
def specBatchRun (gamma : ℚ) (tnet : QNetwork) :
    QNetwork → List Experience → Option (List ℚ × QNetwork)
  | pnet, [] => some ([], pnet)
  | pnet, exp :: rest => do
    let t ← specTDTarget gamma tnet exp
    let oc ← pnet.ForwardWithCache exp.State
    let cq ← oc.1[exp.Action]?
    let p2 ← pnet.Backward oc.2 oc.1 exp.Action t
    let r ← specBatchRun gamma tnet p2 rest
    some ((cq - t) * (cq - t) :: r.1, r.2)

/-- Claim-side one-step move (§4.3): the cell reached from `p` by moving
one step in direction `d`. -/
def specStep (p : Position) (d : Direction) : Position :=
  match d with
  | .Up => { X := p.X, Y := p.Y - 1 }
  | .Down => { X := p.X, Y := p.Y + 1 }
  | .Left => { X := p.X - 1, Y := p.Y }
  | .Right => { X := p.X + 1, Y := p.Y }

/-- Claim-side two-step danger flag (§4.3, indices 19-21): with `d` the
direction selected by the relative action, the one-step cell is the head
moved once along `d` and the two-step cell is that cell moved once more
along `d`; the flag is set when either cell is dangerous (the short-circuit
at a dangerous first step coincides with the disjunction). -/
def specTwoStepFlag (state : GameState) (snakeID : Fin 2) (action : Nat) : Bool :=
  let s := snakeAt state snakeID
  let d := ActionToDirection s.Direction action
  let c1 := specStep (s.Body.headD { X := 0, Y := 0 }) d
  let c2 := specStep c1 d
  isDanger c1 snakeID state || isDanger c2 snakeID state

/-- The row lengths of a weight matrix (its shape). -/
def matShape (m : List (List ℚ)) : List Nat := m.map List.length

/-- Two networks whose six stores have identical shapes. -/
def sameShapeNet (n m : QNetwork) : Prop :=
  matShape n.W1 = matShape m.W1 ∧ n.B1.length = m.B1.length ∧
  matShape n.W2 = matShape m.W2 ∧ n.B2.length = m.B2.length ∧
  matShape n.W3 = matShape m.W3 ∧ n.B3.length = m.B3.length

instance (n m : QNetwork) : Decidable (sameShapeNet n m) := by
  unfold sameShapeNet; infer_instance

/-- Two networks holding identical weights and biases (dimensions and
learning rate aside). -/
def netWeightsEq (n m : QNetwork) : Prop :=
  n.W1 = m.W1 ∧ n.B1 = m.B1 ∧ n.W2 = m.W2 ∧ n.B2 = m.B2 ∧
  n.W3 = m.W3 ∧ n.B3 = m.B3

instance (n m : QNetwork) : Decidable (netWeightsEq n m) := by
  unfold netWeightsEq; infer_instance

/-- A sequence of `Add` calls. -/
def addAll (rb : ReplayBuffer) (xs : List Experience) : ReplayBuffer :=
  xs.foldl ReplayBuffer.Add rb

/-- The index into the insertion sequence of the last write landing on
buffer slot `i`, after `n` insertions into a capacity-`c` buffer. -/
def lastSlotIdx (n c i : Nat) : Nat :=
  n - 1 - ((n - 1 - i) % c)

/-- Concrete 1-1-1-1 network used by witnesses (all weights 1, biases 0). -/
def tinyNet : QNetwork :=
  { W1 := [[1]], B1 := [0], W2 := [[1]], B2 := [0], W3 := [[1]], B3 := [0],
    InputSize := 1, HiddenSize1 := 1, HiddenSize2 := 1, OutputSize := 1,
    LearningRate := 1 / 10 }

/-- A second 1-1-1-1 network with different weights (all 2, biases 0). -/
def tinyNet2 : QNetwork :=
  { W1 := [[2]], B1 := [0], W2 := [[2]], B2 := [0], W3 := [[2]], B3 := [0],
    InputSize := 1, HiddenSize1 := 1, HiddenSize2 := 1, OutputSize := 1,
    LearningRate := 1 / 10 }

/-- A terminal transition with reward -1. -/
def tinyExp : Experience :=
  { State := [1], Action := 0, Reward := -1, NextState := [1], Done := true }

/-- A full capacity-1 buffer holding `tinyExp`. -/
def tinyBuffer : ReplayBuffer :=
  { buffer := [tinyExp], capacity := 1, position := 0, size := 1 }

/-- Concrete agent fixture: one stored transition, batch size 1, step
counter 3 (so the next `Train` call lands on step 4, a train-interval
multiple), target sync every 1000 steps. -/
def tinyAgent : DQNAgent :=
  { PolicyNet := tinyNet, TargetNet := tinyNet, ReplayBuffer := tinyBuffer,
    Gamma := 99 / 100, Epsilon := 1, EpsilonMin := 1 / 100,
    EpsilonDecay := 199 / 200, BatchSize := 1, StepCount := 3,
    TargetUpdate := 1000, TrainInterval := 4 }

/-- Agent with an empty buffer (batch size 4): `Train` is a no-op call. -/
def emptyBufAgent : DQNAgent :=
  { tinyAgent with
    ReplayBuffer := { buffer := List.replicate 10 default, capacity := 10,
                      position := 0, size := 0 }
    BatchSize := 4, StepCount := 0 }

/-- Agent whose next `Train` call lands on a target-sync multiple
(`TargetUpdate = 1`) but returns early: its buffer (capacity 1, size 0) is
below the batch size, and its target network differs from its policy
network. -/
def noSyncAgent : DQNAgent :=
  { tinyAgent with
    TargetNet := tinyNet2
    ReplayBuffer := { buffer := [default], capacity := 1, position := 0, size := 0 }
    StepCount := 0, TargetUpdate := 1 }

/-- Agent whose next `Train` call both trains and lands on a target-sync
multiple (`TargetUpdate = 4`), with a target network that starts out
different from the policy network. -/
def syncAgent : DQNAgent :=
  { tinyAgent with TargetNet := tinyNet2, TargetUpdate := 4 }

/-- Concrete 2-1-1-1 network (weights 1, biases 0) whose configured input
width is 2, for exercising `Forward` on mismatched input lengths. -/
def padNet : QNetwork :=
  { W1 := [[1], [1]], B1 := [0], W2 := [[1]], B2 := [0], W3 := [[1]], B3 := [0],
    InputSize := 2, HiddenSize1 := 1, HiddenSize2 := 1, OutputSize := 1,
    LearningRate := 1 / 10 }

/-- Agent whose current epsilon (0, as `SetEpsilon(0)` leaves it for
playback) lies below its `EpsilonMin` of 1/100. -/
def lowEpsAgent : DQNAgent :=
  { tinyAgent with Epsilon := 0 }

/-- Concrete living snake for the encoder fixture (head (5,5), facing
right). -/
def witSnakeA : Snake :=
  { ID := 0, Body := [{ X := 5, Y := 5 }, { X := 4, Y := 5 }, { X := 3, Y := 5 }],
    Direction := .Right, Alive := true, Score := 0, Grew := false }

/-- Concrete living opponent for the encoder fixture. -/
def witSnakeB : Snake :=
  { ID := 1, Body := [{ X := 8, Y := 8 }, { X := 8, Y := 9 }],
    Direction := .Up, Alive := true, Score := 0, Grew := false }

/-- Concrete 10x10 game state with both snakes alive and active food. -/
def witState : GameState :=
  { Width := 10, Height := 10, Snakes := (witSnakeA, witSnakeB),
    Food := { Position := { X := 2, Y := 2 }, Active := true },
    Turn := 0, GameOver := false, Winner := -1 }

/-- A model file that cannot be opened. -/
def unreadableFile : GobFile :=
  { readable := false, asCurrent := none, asLegacy := none }

/-- A readable model file that neither schema decodes. -/
def undecodableFile : GobFile :=
  { readable := true, asCurrent := none, asLegacy := none }


/-- Three distinguishable transitions for the wrap-around fixture. -/
def w8xs : List Experience :=
  [{ tinyExp with Reward := 1 }, { tinyExp with Reward := 2 },
   { tinyExp with Reward := 3 }]

/-- The encoder fixture's feature vector. -/
def witVec : List ℚ := (EncodeState witState 0).getD []

/-- The policy network of `tinyAgent`/`syncAgent` after the single
backpropagation step of one `Train` call (learning rate 1/10, output error
2 at every layer of the 1-1-1-1 net). -/
def tinyTrainedNet : QNetwork :=
  { W1 := [[4/5]], B1 := [-(1/5)], W2 := [[4/5]], B2 := [-(1/5)],
    W3 := [[4/5]], B3 := [-(1/5)],
    InputSize := 1, HiddenSize1 := 1, HiddenSize2 := 1, OutputSize := 1,
    LearningRate := 1 / 10 }

/-- `tinyAgent` after one `Train` call (no target sync at step 4 of 1000). -/
def tinyTrained : DQNAgent :=
  { tinyAgent with StepCount := 4, PolicyNet := tinyTrainedNet }

/-- `syncAgent` after one `Train` call (step 4 syncs the target net). -/
def syncTrained : DQNAgent :=
  { syncAgent with StepCount := 4, PolicyNet := tinyTrainedNet, TargetNet := tinyTrainedNet }

/-- C9 counterexample: on an agent whose epsilon sits below `EpsilonMin`
(as `SetEpsilon(0)` leaves it), `DecayEpsilon` strictly increases epsilon,
so the update is not monotonically non-increasing for every agent. -/
theorem decay_epsilon_not_monotone_cex :
    lowEpsAgent.Epsilon = 0 ∧ lowEpsAgent.EpsilonMin = 1 / 100 ∧
    lowEpsAgent.DecayEpsilon.Epsilon = 1 / 100 ∧
    ¬ lowEpsAgent.DecayEpsilon.Epsilon ≤ lowEpsAgent.Epsilon := by
  norm_num [lowEpsAgent, tinyAgent, DQNAgent.DecayEpsilon]

/-- C9 (amended): `DecayEpsilon` always sets epsilon to
`max(EpsilonMin, Epsilon * EpsilonDecay)` and the result never lies below
`EpsilonMin`; the update is non-increasing whenever the decay factor is at
most 1 and epsilon starts at or above a non-negative `EpsilonMin` (as with
the shipped hyperparameters 1.0 / 0.995 / 0.01). -/
theorem decay_epsilon_amended (a : DQNAgent) :
    a.DecayEpsilon.Epsilon = max a.EpsilonMin (a.Epsilon * a.EpsilonDecay) ∧
    a.EpsilonMin ≤ a.DecayEpsilon.Epsilon ∧
    (a.EpsilonDecay ≤ 1 → 0 ≤ a.EpsilonMin → a.EpsilonMin ≤ a.Epsilon →
      a.DecayEpsilon.Epsilon ≤ a.Epsilon) := by
  have he : a.DecayEpsilon.Epsilon = max a.EpsilonMin (a.Epsilon * a.EpsilonDecay) := by
    unfold DQNAgent.DecayEpsilon
    by_cases h : a.Epsilon * a.EpsilonDecay < a.EpsilonMin
    · simp only [if_pos h]
      exact (max_eq_left h.le).symm
    · simp only [if_neg h]
      exact (max_eq_right (not_lt.mp h)).symm
  refine ⟨he, ?_, ?_⟩
  · rw [he]; exact le_max_left _ _
  · intro hd hm0 hme
    rw [he]
    have h0 : (0 : ℚ) ≤ a.Epsilon := le_trans hm0 hme
    have hmul : a.Epsilon * a.EpsilonDecay ≤ a.Epsilon := by
      calc a.Epsilon * a.EpsilonDecay ≤ a.Epsilon * 1 :=
            mul_le_mul_of_nonneg_left hd h0
        _ = a.Epsilon := mul_one _
    exact max_le hme hmul

/-- Witness for `decay_epsilon_amended` at the concrete `tinyAgent`
(decay 199/200 ≤ 1, `EpsilonMin` 1/100 between 0 and epsilon 1). -/
theorem decay_epsilon_amended_witness :
    tinyAgent.DecayEpsilon.Epsilon =
      max tinyAgent.EpsilonMin (tinyAgent.Epsilon * tinyAgent.EpsilonDecay) ∧
    tinyAgent.DecayEpsilon.Epsilon ≤ tinyAgent.Epsilon :=
  ⟨(decay_epsilon_amended tinyAgent).1,
   (decay_epsilon_amended tinyAgent).2.2 (by norm_num [tinyAgent])
     (by norm_num [tinyAgent]) (by norm_num [tinyAgent])⟩

/-- C10: whenever `Load` fails — the file cannot be opened, or neither the
current nor the legacy schema decodes — the error is returned and the
agent is exactly the one from before the call (both networks hold the same
weights, biases and dimensions). -/
theorem load_failure_leaves_agent_unchanged (a : DQNAgent) (f : GobFile)
    (hfail : f.readable = false ∨ (f.asCurrent = none ∧ f.asLegacy = none)) :
    a.Load f = some (a, true) := by
  unfold DQNAgent.Load LoadNetwork
  rcases hfail with h | ⟨h1, h2⟩
  · simp [h]
  · cases hr : f.readable <;> simp [hr, h1, h2]

/-- Witness for `load_failure_leaves_agent_unchanged`: an unopenable file
leaves `tinyAgent` untouched. -/
theorem load_failure_witness :
    tinyAgent.Load unreadableFile = some (tinyAgent, true) :=
  load_failure_leaves_agent_unchanged tinyAgent unreadableFile (Or.inl (by decide))

/-- C5 counterexample: `padNet` is configured for input width 2, yet
`Forward` on the length-1 input `[5]` does not fail — it returns the same
value as on the zero-padded input `[5, 0]`, i.e. the mismatch is silently
padded rather than reported. -/
theorem forward_no_shape_check_cex :
    padNet.InputSize = 2 ∧
    padNet.Forward [5] = some [5] ∧
    padNet.Forward [5] = padNet.Forward [5, 0] := by
  norm_num [padNet, QNetwork.Forward, linearForward, linearForwardAux, colDot, relu]

/-- Helper: `trainOnExperience` is exactly one claim-side step — compute the
spec TD target, one cached forward pass, one `Backward` call with that
target, and the half-squared-error bookkeeping. -/
theorem trainOnExperience_eq_spec (a : DQNAgent) (exp : Experience) :
    a.trainOnExperience exp = (do
      let t ← specTDTarget a.Gamma a.TargetNet exp
      let oc ← a.PolicyNet.ForwardWithCache exp.State
      let cq ← oc.1[exp.Action]?
      let p2 ← a.PolicyNet.Backward oc.2 oc.1 exp.Action t
      some ((cq - t) * (cq - t) * (1 / 2), { a with PolicyNet := p2 })) := by
  unfold DQNAgent.trainOnExperience specTDTarget
  cases hd : exp.Done with
  | true => rfl
  | false =>
    cases hf : a.TargetNet.Forward exp.NextState with
    | none => simp [hf]
    | some nq =>
      cases hm : listMax nq with
      | none => simp [hf, hm]
      | some m => simp [hf, hm]

/-- Helper: the `Train` batch loop equals the claim-side sequential batch
protocol `specBatchRun`, threading the policy network left to right and
accumulating half the squared TD errors. -/
theorem goBatchLoop_eq_spec (batch : List Experience) :
    ∀ (a : DQNAgent) (acc : ℚ),
      goBatchLoop acc a batch =
        (specBatchRun a.Gamma a.TargetNet a.PolicyNet batch).map fun r =>
          (acc + r.1.sum * (1 / 2), { a with PolicyNet := r.2 }) := by
  induction batch with
  | nil =>
    intro a acc
    simp [goBatchLoop, specBatchRun]
  | cons exp rest ih =>
    intro a acc
    rw [goBatchLoop, trainOnExperience_eq_spec]
    cases ht : specTDTarget a.Gamma a.TargetNet exp with
    | none => simp [specBatchRun, ht]
    | some t =>
      cases hoc : a.PolicyNet.ForwardWithCache exp.State with
      | none => simp [specBatchRun, ht, hoc]
      | some oc =>
        cases hcq : oc.1[exp.Action]? with
        | none => simp [specBatchRun, ht, hoc, hcq]
        | some cq =>
          cases hb : a.PolicyNet.Backward oc.2 oc.1 exp.Action t with
          | none => simp [specBatchRun, ht, hoc, hcq, hb]
          | some p2 =>
            simp only [specBatchRun, ht, hoc, hcq, hb, Option.some_bind, Option.bind_some,
              Option.bind_eq_bind]
            rw [ih { a with PolicyNet := p2 } (acc + (cq - t) * (cq - t) * (1 / 2))]
            cases hrest : specBatchRun a.Gamma a.TargetNet p2 rest with
            | none => rfl
            | some r =>
              simp only [Option.map_some', Option.some_bind, Option.some.injEq,
                Prod.mk.injEq, List.sum_cons]
              exact ⟨by ring, trivial⟩

/-- Helper: on a call that actually trains (buffer at least batch-sized,
incremented step on the train interval), `Train` decomposes into
`specBatchRun` followed by the optional target sync and the mean-loss
bookkeeping. -/
theorem train_training_case (a : DQNAgent) (perm : List Nat)
    (hsz : ¬ a.ReplayBuffer.size < a.BatchSize)
    (hint : (a.StepCount + 1) % a.TrainInterval = 0) :
    a.Train perm =
      (specBatchRun a.Gamma a.TargetNet a.PolicyNet
          (a.ReplayBuffer.Sample perm a.BatchSize)).bind fun r =>
        (if (a.StepCount + 1) % a.TargetUpdate = 0 then
            ({ a with StepCount := a.StepCount + 1, PolicyNet := r.2 }).UpdateTargetNetwork
          else some { a with StepCount := a.StepCount + 1, PolicyNet := r.2 }).map
          fun a2 =>
            ((0 + r.1.sum * (1 / 2)) /
              ((a.ReplayBuffer.Sample perm a.BatchSize).length : ℚ), a2) := by
  unfold DQNAgent.Train
  simp only [ReplayBuffer.Size]
  rw [if_neg hsz, if_neg (by simp [hint])]
  rw [goBatchLoop_eq_spec]
  cases hrun : specBatchRun a.Gamma a.TargetNet a.PolicyNet
      (a.ReplayBuffer.Sample perm a.BatchSize) with
  | none => rfl
  | some r => rfl


/-- Concrete evaluation: one `Train` call on `tinyAgent` returns loss 2 and
the agent with the backpropagated policy network. -/
theorem tinyTrain_eval : tinyAgent.Train [0] = some (2, tinyTrained) := by
  norm_num [tinyAgent, tinyTrained, tinyTrainedNet, tinyNet, tinyBuffer, tinyExp,
    DQNAgent.Train, DQNAgent.trainOnExperience, goBatchLoop,
    ReplayBuffer.Sample, ReplayBuffer.Size,
    QNetwork.Forward, QNetwork.ForwardWithCache, QNetwork.Backward,
    linearForward, linearForwardAux, colDot, relu, reluDerivative,
    linearBackward, dInputList, dotRow, updateRows, updateCols, updateBiasList,
    elementMul, listMax]

/-- Concrete evaluation: one `Train` call on `syncAgent` also overwrites the
target network (step 4, `TargetUpdate` 4). -/
theorem syncTrain_eval : syncAgent.Train [0] = some (2, syncTrained) := by
  norm_num [syncAgent, syncTrained, tinyAgent, tinyTrainedNet, tinyNet, tinyNet2,
    tinyBuffer, tinyExp,
    DQNAgent.Train, DQNAgent.trainOnExperience, goBatchLoop,
    DQNAgent.UpdateTargetNetwork, QNetwork.CopyFrom, copyMatrix, copyVec,
    ReplayBuffer.Sample, ReplayBuffer.Size,
    QNetwork.Forward, QNetwork.ForwardWithCache, QNetwork.Backward,
    linearForward, linearForwardAux, colDot, relu, reluDerivative,
    linearBackward, dInputList, dotRow, updateRows, updateCols, updateBiasList,
    elementMul, listMax]

/-- C2: every successful `Train` call increments the step counter by one,
and when the buffer is smaller than the batch size or the incremented
counter misses the train interval (fixed at 4), `Train` returns 0.0 with
the agent unchanged except for that counter — in particular the weights
and biases of both networks are untouched. -/
theorem train_increments_and_noop (a : DQNAgent) (perm : List Nat)
    (hti : a.TrainInterval = 4) :
    (∀ r ∈ a.Train perm, r.2.StepCount = a.StepCount + 1) ∧
    (a.ReplayBuffer.size < a.BatchSize ∨ (a.StepCount + 1) % 4 ≠ 0 →
      a.Train perm = some (0, { a with StepCount := a.StepCount + 1 })) := by
  constructor
  · intro r hr
    rw [Option.mem_def] at hr
    by_cases hsz : a.ReplayBuffer.size < a.BatchSize
    · unfold DQNAgent.Train at hr
      simp only [ReplayBuffer.Size] at hr
      rw [if_pos hsz] at hr
      cases hr
      rfl
    · by_cases hint : (a.StepCount + 1) % a.TrainInterval = 0
      · rw [train_training_case a perm hsz hint] at hr
        obtain ⟨r0, hr0, hf⟩ := Option.bind_eq_some.mp hr
        by_cases hsync : (a.StepCount + 1) % a.TargetUpdate = 0
        · rw [if_pos hsync] at hf
          unfold DQNAgent.UpdateTargetNetwork at hf
          obtain ⟨y, hy, hyy⟩ := Option.map_eq_some'.mp hf
          obtain ⟨tn, htn, hytn⟩ := Option.map_eq_some'.mp hy
          have : r = ((0 + r0.1.sum * (1 / 2)) /
              ((a.ReplayBuffer.Sample perm a.BatchSize).length : ℚ), y) := hyy.symm
          rw [this, ← hytn]
        · rw [if_neg hsync] at hf
          simp only [Option.map_some'] at hf
          have h2 := Option.some.inj hf
          rw [← h2]
      · unfold DQNAgent.Train at hr
        simp only [ReplayBuffer.Size] at hr
        rw [if_neg hsz, if_pos hint] at hr
        cases hr
        rfl
  · intro h
    by_cases hsz : a.ReplayBuffer.size < a.BatchSize
    · unfold DQNAgent.Train
      simp only [ReplayBuffer.Size]
      rw [if_pos hsz]
    · have hint : (a.StepCount + 1) % a.TrainInterval ≠ 0 := by
        rcases h with h | h
        · exact absurd h hsz
        · rw [hti]; exact h
      unfold DQNAgent.Train
      simp only [ReplayBuffer.Size]
      rw [if_neg hsz, if_pos hint]

/-- Witness for `train_increments_and_noop`: 0 stored transitions with
batch size 4 yield a no-op call returning 0. -/
theorem train_noop_witness :
    emptyBufAgent.Train [] =
      some (0, { emptyBufAgent with StepCount := emptyBufAgent.StepCount + 1 }) :=
  (train_increments_and_noop emptyBufAgent [] (by decide)).2 (Or.inl (by decide))

/-- C1: whenever `Train` actually trains and succeeds, the resulting policy
network is exactly the one produced by processing the sampled batch in
order, calling `Backward` once per transition with the TD target —
`reward` alone when terminal, else
`reward + γ · max(TargetNetwork.Forward(nextState))` — each call mutating
the policy network before the next transition is processed
(`specBatchRun`). -/
theorem train_td_target_per_transition (a : DQNAgent) (perm : List Nat)
    (loss : ℚ) (a2 : DQNAgent)
    (hsz : ¬ a.ReplayBuffer.size < a.BatchSize)
    (hint : (a.StepCount + 1) % a.TrainInterval = 0)
    (htr : a.Train perm = some (loss, a2)) :
    (specBatchRun a.Gamma a.TargetNet a.PolicyNet
        (a.ReplayBuffer.Sample perm a.BatchSize)).map Prod.snd = some a2.PolicyNet := by
  rw [train_training_case a perm hsz hint] at htr
  obtain ⟨r, hr, hf⟩ := Option.bind_eq_some.mp htr
  rw [hr]
  by_cases hsync : (a.StepCount + 1) % a.TargetUpdate = 0
  · rw [if_pos hsync] at hf
    unfold DQNAgent.UpdateTargetNetwork at hf
    obtain ⟨y, hy, hyy⟩ := Option.map_eq_some'.mp hf
    obtain ⟨tn, htn, hytn⟩ := Option.map_eq_some'.mp hy
    have ha2 : a2 = y := congrArg Prod.snd hyy.symm
    rw [ha2, ← hytn]
    rfl
  · rw [if_neg hsync] at hf
    simp only [Option.map_some'] at hf
    have h2 := Option.some.inj hf
    have ha2 : a2 = { a with StepCount := a.StepCount + 1, PolicyNet := r.2 } :=
      (congrArg Prod.snd h2).symm
    rw [ha2]
    rfl

/-- Witness for `train_td_target_per_transition` on `tinyAgent`: its
terminal reward -1 transition yields TD target -1 with no bootstrap term. -/
theorem train_td_target_witness :
    (specBatchRun tinyAgent.Gamma tinyAgent.TargetNet tinyAgent.PolicyNet
        (tinyAgent.ReplayBuffer.Sample [0] tinyAgent.BatchSize)).map Prod.snd =
      some tinyTrained.PolicyNet :=
  train_td_target_per_transition tinyAgent [0] 2 tinyTrained (by decide) (by decide)
    tinyTrain_eval

/-- C4 (amended): when `Train` actually trains, its return value equals
one half of the mean over the batch of the squared TD error
`(output[action] - targetQ)^2` computed from the pre-update policy output
per sample (the code logs `0.5 · error²` per sample, not `error²`). -/
theorem train_returns_half_mean_squared (a : DQNAgent) (perm : List Nat)
    (loss : ℚ) (a2 : DQNAgent)
    (hsz : ¬ a.ReplayBuffer.size < a.BatchSize)
    (hint : (a.StepCount + 1) % a.TrainInterval = 0)
    (htr : a.Train perm = some (loss, a2)) :
    (specBatchRun a.Gamma a.TargetNet a.PolicyNet
        (a.ReplayBuffer.Sample perm a.BatchSize)).map
      (fun r => r.1.sum / ((a.ReplayBuffer.Sample perm a.BatchSize).length : ℚ) * (1 / 2))
      = some loss := by
  rw [train_training_case a perm hsz hint] at htr
  obtain ⟨r, hr, hf⟩ := Option.bind_eq_some.mp htr
  rw [hr]
  have hloss : loss = (0 + r.1.sum * (1 / 2)) /
      ((a.ReplayBuffer.Sample perm a.BatchSize).length : ℚ) := by
    by_cases hsync : (a.StepCount + 1) % a.TargetUpdate = 0
    · rw [if_pos hsync] at hf
      obtain ⟨y, hy, hyy⟩ := Option.map_eq_some'.mp hf
      exact (congrArg Prod.fst hyy).symm
    · rw [if_neg hsync] at hf
      simp only [Option.map_some'] at hf
      exact (congrArg Prod.fst (Option.some.inj hf)).symm
  rw [hloss]
  simp only [Option.map_some', Option.some.injEq]
  ring

/-- Witness for `train_returns_half_mean_squared` at `tinyAgent` (squared
error 4, returned loss 2). -/
theorem train_loss_half_mean_witness :
    (specBatchRun tinyAgent.Gamma tinyAgent.TargetNet tinyAgent.PolicyNet
        (tinyAgent.ReplayBuffer.Sample [0] tinyAgent.BatchSize)).map
      (fun r => r.1.sum / ((tinyAgent.ReplayBuffer.Sample [0] tinyAgent.BatchSize).length : ℚ)
        * (1 / 2)) = some 2 :=
  train_returns_half_mean_squared tinyAgent [0] 2 tinyTrained (by decide) (by decide)
    tinyTrain_eval

/-- C4 counterexample: on `tinyAgent` the mean of the squared TD errors
over the batch is 4, but `Train` returns 2 — the claim that the return
value equals the mean squared TD error fails on the code, which halves
each squared error. -/
theorem train_loss_not_mean_squared_cex :
    (tinyAgent.Train [0]).map Prod.fst = some 2 ∧
    (specBatchRun tinyAgent.Gamma tinyAgent.TargetNet tinyAgent.PolicyNet
        (tinyAgent.ReplayBuffer.Sample [0] tinyAgent.BatchSize)).map
      (fun r => r.1.sum / ((tinyAgent.ReplayBuffer.Sample [0] tinyAgent.BatchSize).length : ℚ))
      = some 4 ∧
    (2 : ℚ) ≠ 4 := by
  refine ⟨?_, ?_, by norm_num⟩
  · rw [tinyTrain_eval]; rfl
  · norm_num [specBatchRun, specTDTarget, tinyAgent, tinyNet, tinyExp, tinyBuffer,
      ReplayBuffer.Sample, QNetwork.ForwardWithCache, QNetwork.Forward,
      linearForward, linearForwardAux, colDot, relu, reluDerivative,
      QNetwork.Backward, linearBackward, dInputList, dotRow, updateRows, updateCols,
      updateBiasList, elementMul, listMax]

/-- Shape equality is reflexive. -/
theorem sameShapeNet_refl (n : QNetwork) : sameShapeNet n n :=
  ⟨rfl, rfl, rfl, rfl, rfl, rfl⟩

/-- Shape equality is symmetric. -/
theorem sameShapeNet_symm (h : sameShapeNet n m) : sameShapeNet m n :=
  ⟨h.1.symm, h.2.1.symm, h.2.2.1.symm, h.2.2.2.1.symm, h.2.2.2.2.1.symm, h.2.2.2.2.2.symm⟩

/-- Shape equality is transitive. -/
theorem sameShapeNet_trans (h1 : sameShapeNet x y) (h2 : sameShapeNet y z) :
    sameShapeNet x z :=
  ⟨h1.1.trans h2.1, h1.2.1.trans h2.2.1, h1.2.2.1.trans h2.2.2.1,
   h1.2.2.2.1.trans h2.2.2.2.1, h1.2.2.2.2.1.trans h2.2.2.2.2.1,
   h1.2.2.2.2.2.trans h2.2.2.2.2.2⟩

/-- The SGD column update preserves a row's length. -/
theorem updateCols_length (lr xi : ℚ) :
    ∀ (dOut row r : List ℚ), updateCols lr xi dOut row = some r → r.length = row.length := by
  intro dOut
  induction dOut with
  | nil =>
    intro row r h
    simp only [updateCols, Option.some.injEq] at h
    rw [← h]
  | cons d ds ih =>
    intro row r h
    cases row with
    | nil => exact Option.noConfusion h
    | cons w ws =>
      simp only [updateCols] at h
      obtain ⟨rest, hrest, hr⟩ := Option.map_eq_some'.mp h
      rw [← hr]
      simp [ih ws rest hrest]

/-- The SGD row updates preserve the weight matrix's shape. -/
theorem updateRows_shape (lr : ℚ) :
    ∀ (input : List ℚ) (w : List (List ℚ)) (dOut : List ℚ) (w2 : List (List ℚ)),
      updateRows lr input w dOut = some w2 → matShape w2 = matShape w := by
  intro input
  induction input with
  | nil =>
    intro w dOut w2 h
    simp only [updateRows, Option.some.injEq] at h
    rw [← h]
  | cons x xs ih =>
    intro w dOut w2 h
    cases w with
    | nil => exact Option.noConfusion h
    | cons row rows =>
      simp only [updateRows] at h
      cases hc : updateCols lr x dOut row with
      | none => rw [hc] at h; exact Option.noConfusion h
      | some r =>
        rw [hc] at h
        simp only [Option.some_bind] at h
        obtain ⟨rs, hrs, hr⟩ := Option.map_eq_some'.mp h
        rw [← hr]
        simp only [matShape, List.map_cons]
        rw [updateCols_length lr x dOut row r hc]
        have := ih rows dOut rs hrs
        simp only [matShape] at this
        rw [this]

/-- The SGD bias update preserves the bias vector's length. -/
theorem updateBiasList_length (lr : ℚ) :
    ∀ (dOut bias b2 : List ℚ), updateBiasList lr bias dOut = some b2 → b2.length = bias.length := by
  intro dOut
  induction dOut with
  | nil =>
    intro bias b2 h
    simp only [updateBiasList, Option.some.injEq] at h
    rw [← h]
  | cons d ds ih =>
    intro bias b2 h
    cases bias with
    | nil => exact Option.noConfusion h
    | cons b bs =>
      simp only [updateBiasList] at h
      obtain ⟨rest, hrest, hr⟩ := Option.map_eq_some'.mp h
      rw [← hr]
      simp [ih bs rest hrest]

/-- `linearBackward` preserves the shapes of the weight matrix and bias. -/
theorem linearBackward_shapes (lr : ℚ) (input : List ℚ) (w : List (List ℚ))
    (bias dOut : List ℚ) (u : Bool) (res : List ℚ × List (List ℚ) × List ℚ)
    (h : linearBackward lr input w bias dOut u = some res) :
    matShape res.2.1 = matShape w ∧ res.2.2.length = bias.length := by
  unfold linearBackward at h
  obtain ⟨di, hdi, h2⟩ := Option.bind_eq_some.mp h
  cases u with
  | false =>
    simp only [Bool.false_eq_true, if_false, Option.some.injEq] at h2
    rw [← h2]
    exact ⟨rfl, rfl⟩
  | true =>
    simp only [if_true] at h2
    obtain ⟨w2, hw2, h3⟩ := Option.bind_eq_some.mp h2
    obtain ⟨b2, hb2, h4⟩ := Option.bind_eq_some.mp h3
    have hres := Option.some.inj h4
    rw [← hres]
    exact ⟨updateRows_shape lr input w dOut w2 hw2,
           updateBiasList_length lr dOut bias b2 hb2⟩

/-- `Backward` preserves the shapes of all six parameter stores. -/
theorem backward_sameShape (n : QNetwork) (cache : ForwardCache) (output : List ℚ)
    (i : Nat) (t : ℚ) (n2 : QNetwork) (h : n.Backward cache output i t = some n2) :
    sameShapeNet n2 n := by
  unfold QNetwork.Backward at h
  obtain ⟨ov, hov, h1⟩ := Option.bind_eq_some.mp h
  by_cases hlt : i < n.OutputSize
  · rw [if_pos hlt] at h1
    obtain ⟨r3, hr3, h2⟩ := Option.bind_eq_some.mp h1
    obtain ⟨dz2, hdz2, h3⟩ := Option.bind_eq_some.mp h2
    obtain ⟨r2, hr2, h4⟩ := Option.bind_eq_some.mp h3
    obtain ⟨dz1, hdz1, h5⟩ := Option.bind_eq_some.mp h4
    obtain ⟨r1, hr1, h6⟩ := Option.bind_eq_some.mp h5
    have hn2 := Option.some.inj h6
    obtain ⟨hw3, hb3⟩ := linearBackward_shapes _ _ _ _ _ _ _ hr3
    obtain ⟨hw2, hb2⟩ := linearBackward_shapes _ _ _ _ _ _ _ hr2
    obtain ⟨hw1, hb1⟩ := linearBackward_shapes _ _ _ _ _ _ _ hr1
    rw [← hn2]
    exact ⟨hw1, hb1, hw2, hb2, hw3, hb3⟩
  · rw [if_neg hlt] at h1
    exact Option.noConfusion h1

/-- A whole batch of sequential updates preserves the policy network's
shapes. -/
theorem specBatchRun_shape (gamma : ℚ) (tnet : QNetwork) :
    ∀ (batch : List Experience) (p : QNetwork) (res : List ℚ × QNetwork),
      specBatchRun gamma tnet p batch = some res → sameShapeNet res.2 p := by
  intro batch
  induction batch with
  | nil =>
    intro p res h
    simp only [specBatchRun, Option.some.injEq] at h
    rw [← h]
    exact sameShapeNet_refl p
  | cons exp rest ih =>
    intro p res h
    cases ht : specTDTarget gamma tnet exp with
    | none => rw [specBatchRun, ht] at h; exact Option.noConfusion h
    | some t =>
      cases hoc : p.ForwardWithCache exp.State with
      | none => rw [specBatchRun, ht] at h; simp [hoc] at h
      | some oc =>
        cases hcq : oc.1[exp.Action]? with
        | none => rw [specBatchRun, ht] at h; simp [hoc, hcq] at h
        | some cq =>
          cases hb : p.Backward oc.2 oc.1 exp.Action t with
          | none => rw [specBatchRun, ht] at h; simp [hoc, hcq, hb] at h
          | some p2 =>
            rw [specBatchRun, ht] at h
            simp only [hoc, hcq, hb, Option.some_bind, Option.bind_some,
              Option.bind_eq_bind] at h
            cases hrest : specBatchRun gamma tnet p2 rest with
            | none => rw [hrest] at h; exact Option.noConfusion h
            | some r =>
              rw [hrest] at h
              simp only [Option.some_bind, Option.bind_eq_bind, Option.some.injEq] at h
              have hsnd : res.2 = r.2 := by rw [← h]
              rw [hsnd]
              exact sameShapeNet_trans (ih p2 r hrest) (backward_sameShape _ _ _ _ _ _ hb)

/-- Go's `copy` with equal lengths replaces the destination entirely. -/
theorem copyVec_full (dst src : List ℚ) (h : dst.length = src.length) :
    copyVec dst src = src := by
  unfold copyVec
  have hd : dst.drop src.length = [] := by
    rw [← h]
    exact List.drop_length dst
  rw [h, List.take_length, hd, List.append_nil]

/-- `copyMatrix` between equal-shaped matrices succeeds and yields the
source. -/
theorem copyMatrix_full :
    ∀ (src dst : List (List ℚ)), matShape dst = matShape src → copyMatrix dst src = some src := by
  intro src
  induction src with
  | nil =>
    intro dst h
    simp only [matShape, List.map_nil, List.map_eq_nil_iff] at h
    rw [h]
    rfl
  | cons s ss ih =>
    intro dst h
    cases dst with
    | nil => simp [matShape] at h
    | cons d ds =>
      simp only [matShape, List.map_cons, List.cons.injEq] at h
      obtain ⟨h1, h2⟩ := h
      simp only [copyMatrix]
      rw [ih ds h2]
      simp only [Option.map_some', Option.some.injEq, List.cons.injEq]
      exact ⟨copyVec_full d s h1, trivial⟩

/-- `CopyFrom` between equal-shaped networks succeeds and copies all six
stores (dimensions and learning rate of the receiver are kept). -/
theorem copyFrom_full (dst src : QNetwork) (h : sameShapeNet dst src) :
    dst.CopyFrom src = some
      { dst with W1 := src.W1, B1 := src.B1, W2 := src.W2, B2 := src.B2,
                 W3 := src.W3, B3 := src.B3 } := by
  obtain ⟨h1, h2, h3, h4, h5, h6⟩ := h
  unfold QNetwork.CopyFrom
  rw [copyMatrix_full src.W1 dst.W1 h1, copyMatrix_full src.W2 dst.W2 h3,
    copyMatrix_full src.W3 dst.W3 h5]
  simp [copyVec_full _ _ h2, copyVec_full _ _ h4, copyVec_full _ _ h6]

/-- C3 (amended): the target network is overwritten with a deep copy of
the policy network's current (post-batch-update) weights only on `Train`
calls that actually perform a batch update and whose incremented step
counter is a multiple of `TargetUpdate`; calls that return early — buffer
below batch size or off the train interval — never touch the target
network, even when the step counter is a multiple of `TargetUpdate`. -/
theorem target_sync_on_training_steps (a : DQNAgent) (perm : List Nat)
    (hsh : sameShapeNet a.TargetNet a.PolicyNet) :
    (∀ loss a2, ¬ a.ReplayBuffer.size < a.BatchSize →
      (a.StepCount + 1) % a.TrainInterval = 0 →
      (a.StepCount + 1) % a.TargetUpdate = 0 →
      a.Train perm = some (loss, a2) →
      netWeightsEq a2.TargetNet a2.PolicyNet) ∧
    (∀ loss a2, a.ReplayBuffer.size < a.BatchSize ∨ (a.StepCount + 1) % a.TrainInterval ≠ 0 →
      a.Train perm = some (loss, a2) → a2.TargetNet = a.TargetNet) := by
  constructor
  · intro loss a2 hsz hint hsync htr
    rw [train_training_case a perm hsz hint] at htr
    obtain ⟨r, hr, hf⟩ := Option.bind_eq_some.mp htr
    rw [if_pos hsync] at hf
    unfold DQNAgent.UpdateTargetNetwork at hf
    obtain ⟨y, hy, hyy⟩ := Option.map_eq_some'.mp hf
    obtain ⟨tn, htn, hytn⟩ := Option.map_eq_some'.mp hy
    have hshape2 : sameShapeNet r.2 a.PolicyNet :=
      specBatchRun_shape a.Gamma a.TargetNet _ a.PolicyNet r hr
    have hsh3 : sameShapeNet a.TargetNet r.2 :=
      sameShapeNet_trans hsh (sameShapeNet_symm hshape2)
    rw [show ({ a with StepCount := a.StepCount + 1, PolicyNet := r.2 } : DQNAgent).TargetNet
        = a.TargetNet from rfl] at htn
    rw [show ({ a with StepCount := a.StepCount + 1, PolicyNet := r.2 } : DQNAgent).PolicyNet
        = r.2 from rfl] at htn
    rw [copyFrom_full a.TargetNet r.2 hsh3] at htn
    have htn2 := Option.some.inj htn
    have ha2 : a2 = y := congrArg Prod.snd hyy.symm
    rw [ha2, ← hytn, ← htn2]
    exact ⟨rfl, rfl, rfl, rfl, rfl, rfl⟩
  · intro loss a2 h htr
    by_cases hsz : a.ReplayBuffer.size < a.BatchSize
    · unfold DQNAgent.Train at htr
      simp only [ReplayBuffer.Size] at htr
      rw [if_pos hsz] at htr
      injection Option.some.inj htr with hl ha
      rw [← ha]
    · have hint : (a.StepCount + 1) % a.TrainInterval ≠ 0 := by
        rcases h with h | h
        · exact absurd h hsz
        · exact h
      unfold DQNAgent.Train at htr
      simp only [ReplayBuffer.Size] at htr
      rw [if_neg hsz, if_pos hint] at htr
      injection Option.some.inj htr with hl ha
      rw [← ha]

/-- Witness for `target_sync_on_training_steps`: after `syncAgent`'s
training-and-sync step the two networks hold identical weights. -/
theorem target_sync_witness :
    netWeightsEq syncTrained.TargetNet syncTrained.PolicyNet :=
  (target_sync_on_training_steps syncAgent [0] (by decide)).1 2 syncTrained
    (by decide) (by decide) (by decide) syncTrain_eval

/-- C3 counterexample: `noSyncAgent`'s `Train` call lands on a step
counter that is a multiple of `TargetUpdate` (1 % 1 = 0), yet the call
returns early (buffer below batch size) and the target network still
differs from the policy network — refuting the claim that the sync happens
regardless of whether a network update occurred. -/
theorem target_sync_skipped_cex :
    noSyncAgent.Train [] = some (0, { noSyncAgent with StepCount := 1 }) ∧
    1 % noSyncAgent.TargetUpdate = 0 ∧
    ¬ netWeightsEq ({ noSyncAgent with StepCount := 1 } : DQNAgent).TargetNet
        ({ noSyncAgent with StepCount := 1 } : DQNAgent).PolicyNet := by
  refine ⟨?_, by decide, ?_⟩
  · unfold DQNAgent.Train
    simp only [ReplayBuffer.Size]
    rw [if_pos (by decide)]
    rfl
  · intro hcontra
    have := hcontra.1
    simp [noSyncAgent, tinyAgent, tinyNet, tinyNet2, netWeightsEq] at this

theorem colDot_none :
    ∀ (input : List ℚ) (w : List (List ℚ)) (j : Nat), w.length < input.length →
      colDot input w j = none := by
  intro input
  induction input with
  | nil => intro w j h; simp at h
  | cons x xs ih =>
    intro w j h
    cases w with
    | nil => rfl
    | cons row rows =>
      simp only [List.length_cons, Nat.add_lt_add_iff_right] at h
      simp only [colDot]
      cases hj : row[j]? with
      | none => rfl
      | some w0 => rw [ih rows j (by simpa using h)]; rfl

theorem colDot_zeros :
    ∀ (w : List (List ℚ)) (k j : Nat), w.length = k → (∀ r ∈ w, j < r.length) →
      colDot (List.replicate k 0) w j = some 0 := by
  intro w
  induction w with
  | nil => intro k j hk hr; rw [← hk]; rfl
  | cons row rows ih =>
    intro k j hk hr
    cases k with
    | zero => simp at hk
    | succ k2 =>
      simp only [List.replicate, colDot]
      rw [List.getElem?_eq_getElem (hr row (by simp))]
      rw [ih k2 j (by simpa using hk) (fun r hr2 => hr r (by simp [hr2]))]
      simp

theorem colDot_pad :
    ∀ (input : List ℚ) (w : List (List ℚ)) (k j : Nat),
      input.length + k = w.length → (∀ r ∈ w, j < r.length) →
      colDot (input ++ List.replicate k 0) w j = colDot input w j := by
  intro input
  induction input with
  | nil =>
    intro w k j hk hr
    simp only [List.nil_append]
    rw [colDot_zeros w k j (by simpa using hk.symm) hr]
    rfl
  | cons x xs ih =>
    intro w k j hk hr
    cases w with
    | nil => simp at hk
    | cons row rows =>
      simp only [List.length_cons] at hk
      simp only [List.cons_append, colDot, List.append_eq]
      rw [ih rows k j (by omega) (fun r hr2 => hr r (by simp [hr2]))]

theorem colDot_some :
    ∀ (input : List ℚ) (w : List (List ℚ)) (j : Nat),
      input.length ≤ w.length → (∀ r ∈ w, j < r.length) →
      ∃ q, colDot input w j = some q := by
  intro input
  induction input with
  | nil => intro w j h hr; exact ⟨0, rfl⟩
  | cons x xs ih =>
    intro w j h hr
    cases w with
    | nil => simp at h
    | cons row rows =>
      simp only [List.length_cons] at h
      have hjlt : j < row.length := hr row (by simp)
      simp only [colDot]
      rw [List.getElem?_eq_getElem hjlt]
      obtain ⟨q, hq⟩ := ih rows j (by omega) (fun r hr2 => hr r (by simp [hr2]))
      exact ⟨x * row[j] + q, by rw [hq]; rfl⟩

theorem linearForwardAux_pad (w : List (List ℚ)) (m : Nat)
    (hrows : ∀ r ∈ w, r.length = m) :
    ∀ (bias : List ℚ) (j0 : Nat) (input : List ℚ) (k : Nat),
      input.length + k = w.length → j0 + bias.length ≤ m →
      linearForwardAux (input ++ List.replicate k 0) w bias j0 =
        linearForwardAux input w bias j0 := by
  intro bias
  induction bias with
  | nil => intro j0 input k hk hj; rfl
  | cons b bs ih =>
    intro j0 input k hk hj
    simp only [List.length_cons] at hj
    simp only [linearForwardAux]
    rw [colDot_pad input w k j0 hk
      (fun r hr => by rw [hrows r hr]; omega)]
    rw [ih (j0 + 1) input k hk (by omega)]

theorem linearForwardAux_some (w : List (List ℚ)) (m : Nat)
    (hrows : ∀ r ∈ w, r.length = m) :
    ∀ (bias : List ℚ) (j0 : Nat) (input : List ℚ),
      input.length ≤ w.length → j0 + bias.length ≤ m →
      ∃ out, linearForwardAux input w bias j0 = some out ∧ out.length = bias.length := by
  intro bias
  induction bias with
  | nil => intro j0 input hlen hj; exact ⟨[], rfl, rfl⟩
  | cons b bs ih =>
    intro j0 input hlen hj
    simp only [List.length_cons] at hj
    obtain ⟨q, hq⟩ := colDot_some input w j0 hlen
      (fun r hr => by rw [hrows r hr]; omega)
    obtain ⟨out, hout, hlen2⟩ := ih (j0 + 1) input hlen (by omega)
    refine ⟨(b + q) :: out, ?_, by simp [hlen2]⟩
    simp only [linearForwardAux]
    rw [hq, hout]
    rfl

/-- C5 (amended): `Forward` performs no shape check.  On a well-formed
network, an input shorter than the configured input width is processed as
if silently zero-padded to that width — the call succeeds and returns the
same output vector as the padded input (of the configured output width) —
while an input longer than the configured width panics on the missing
weight row (provided the first hidden layer is non-trivial) instead of
reporting a shape-mismatch error. -/
theorem forward_shape_behavior (n : QNetwork) (input : List ℚ) (hwf : n.WF) :
    (input.length ≤ n.InputSize →
      n.Forward input = n.Forward (input ++ List.replicate (n.InputSize - input.length) 0) ∧
      ∃ out, n.Forward input = some out ∧ out.length = n.OutputSize) ∧
    (n.InputSize < input.length → 0 < n.HiddenSize1 → n.Forward input = none) := by
  obtain ⟨hw1, hr1, hb1, hw2, hr2, hb2, hw3, hr3, hb3⟩ := hwf
  constructor
  · intro hle
    constructor
    · unfold QNetwork.Forward linearForward
      rw [linearForwardAux_pad n.W1 n.HiddenSize1 hr1 n.B1 0 input
        (n.InputSize - input.length) (by omega) (by omega)]
    · obtain ⟨z1, hz1, hlen1⟩ := linearForwardAux_some n.W1 n.HiddenSize1 hr1 n.B1 0 input
        (by omega) (by omega)
      obtain ⟨z2, hz2, hlen2⟩ := linearForwardAux_some n.W2 n.HiddenSize2 hr2 n.B2 0 (relu z1)
        (by simp [relu, hlen1]; omega) (by omega)
      obtain ⟨z3, hz3, hlen3⟩ := linearForwardAux_some n.W3 n.OutputSize hr3 n.B3 0 (relu z2)
        (by simp [relu, hlen2]; omega) (by omega)
      refine ⟨z3, ?_, by omega⟩
      unfold QNetwork.Forward linearForward
      rw [hz1]
      simp only [Option.some_bind, Option.bind_eq_bind]
      rw [hz2]
      simp only [Option.some_bind, Option.bind_eq_bind]
      exact hz3
  · intro hgt hh1
    unfold QNetwork.Forward linearForward
    cases hbb : n.B1 with
    | nil => rw [hbb] at hb1; simp at hb1; omega
    | cons b bs =>
      simp only [linearForwardAux]
      rw [colDot_none input n.W1 0 (by omega)]
      rfl

/-- Witness for `forward_shape_behavior` at `padNet`: the length-1 input is
processed as the zero-padded `[5, 0]`, and a length-3 input panics. -/
theorem forward_shape_witness :
    padNet.Forward [5] =
      padNet.Forward ([5] ++ List.replicate (padNet.InputSize - [(5 : ℚ)].length) 0) ∧
    padNet.Forward [5, 0, 0] = none :=
  ⟨((forward_shape_behavior padNet [5] (by decide)).1 (by decide)).1,
   (forward_shape_behavior padNet [5, 0, 0] (by decide)).2 (by decide) (by decide)⟩

/-- C7: when the permutation drawn by the sampler's generator is a
permutation of `[0, count)`, `Sample(batchSize)` returns exactly
`min(batchSize, count)` transitions, read off a duplicate-free list of
in-range buffer indices — i.e. drawn without replacement, each stored
buffer entry appearing at most once; in particular a buffer with
`count < batchSize` yields exactly `count` items. -/
theorem sample_min_without_replacement (rb : ReplayBuffer) (perm : List Nat)
    (batchSize : Nat) (hperm : List.Perm perm (List.range rb.size)) :
    (rb.Sample perm batchSize).length = min batchSize rb.size ∧
    (perm.take (min batchSize rb.size)).Nodup ∧
    (∀ i ∈ perm.take (min batchSize rb.size), i < rb.size) ∧
    rb.Sample perm batchSize =
      (perm.take (min batchSize rb.size)).map fun i => rb.buffer.getD i default := by
  have hlen : perm.length = rb.size := by
    rw [hperm.length_eq, List.length_range]
  have hbs : (if batchSize > rb.size then rb.size else batchSize) = min batchSize rb.size := by
    split <;> omega
  have hsample : rb.Sample perm batchSize =
      (perm.take (min batchSize rb.size)).map fun i => rb.buffer.getD i default := by
    unfold ReplayBuffer.Sample
    rw [hbs]
  refine ⟨?_, ?_, ?_, hsample⟩
  · rw [hsample, List.length_map, List.length_take]
    omega
  · exact (List.take_sublist _ _).nodup (hperm.nodup_iff.mpr (List.nodup_range _))
  · intro i hi
    have : i ∈ perm := List.mem_of_mem_take hi
    have := hperm.mem_iff.mp this
    exact List.mem_range.mp this

/-- Witness for `sample_min_without_replacement`: sampling 5 from the
1-element `tinyBuffer` returns exactly 1 item. -/
theorem sample_witness :
    (tinyBuffer.Sample [0] 5).length = min 5 tinyBuffer.size ∧
    (([0] : List Nat).take (min 5 tinyBuffer.size)).Nodup :=
  ⟨(sample_min_without_replacement tinyBuffer [0] 5 (by decide)).1,
   (sample_min_without_replacement tinyBuffer [0] 5 (by decide)).2.1⟩

/-- The slot written by insertion `n` (the `n+1`-st) is the last write to
slot `n % c`, and it lands on the just-appended element. -/
theorem lastSlotIdx_last (n c : Nat) (_hc : 0 < c) :
    lastSlotIdx (n + 1) c (n % c) = n := by
  unfold lastSlotIdx
  have hdiv : c * (n / c) + n % c = n := Nat.div_add_mod n c
  have e1 : n + 1 - 1 - n % c = c * (n / c) := by omega
  rw [e1, Nat.mul_mod_right]
  omega

/-- A slot other than the one just written keeps its previous last write:
appending one element does not change `lastSlotIdx` there. -/
theorem lastSlotIdx_step (n c i : Nat) (hc : 0 < c) (hi : i < c) (hin : i < n)
    (hne : i ≠ n % c) :
    lastSlotIdx (n + 1) c i = lastSlotIdx n c i ∧ lastSlotIdx n c i < n := by
  have hd1 : 1 ≤ n - i := by omega
  have hdiv : c * ((n - i) / c) + (n - i) % c = n - i := Nat.div_add_mod (n - i) c
  have hmlt : (n - i) % c < c := Nat.mod_lt _ hc
  have hne0 : (n - i) % c ≠ 0 := by
    intro h0
    have hn2 : n = i + c * ((n - i) / c) := by omega
    have hmm : n % c = i % c := by rw [hn2, Nat.add_mul_mod_self_left]
    rw [Nat.mod_eq_of_lt hi] at hmm
    exact hne hmm.symm
  have hpred : (n - i - 1) % c = (n - i) % c - 1 := by
    have h2 : n - i - 1 = c * ((n - i) / c) + ((n - i) % c - 1) := by omega
    rw [h2, Nat.mul_add_mod, Nat.mod_eq_of_lt (by omega)]
  constructor
  · unfold lastSlotIdx
    have e1 : n + 1 - 1 - i = n - i := by omega
    have e2 : n - 1 - i = n - i - 1 := by omega
    rw [e1, e2, hpred]
    omega
  · unfold lastSlotIdx
    have e2 : n - 1 - i = n - i - 1 := by omega
    rw [e2, hpred]
    omega

/-- Invariant of a fresh capacity-`c` buffer after any sequence of `Add`
calls: capacity and storage length stay `c`, the cursor is the insertion
count mod `c`, the count is `min inserted c`, and each slot `i` holds the
element of the last insertion that landed on it (`lastSlotIdx`), or the
zero value if the slot was never written. -/
theorem addAll_invariant (c : Nat) (hc : 0 < c) (xs : List Experience) :
    (addAll (NewReplayBuffer c) xs).capacity = c ∧
    (addAll (NewReplayBuffer c) xs).buffer.length = c ∧
    (addAll (NewReplayBuffer c) xs).position = xs.length % c ∧
    (addAll (NewReplayBuffer c) xs).size = min xs.length c ∧
    (∀ i, i < c →
      (addAll (NewReplayBuffer c) xs).buffer.getD i default =
        if i < min xs.length c then xs.getD (lastSlotIdx xs.length c i) default
        else default) := by
  induction xs using List.reverseRecOn with
  | nil =>
    refine ⟨rfl, by simp [addAll, NewReplayBuffer], by simp [addAll, NewReplayBuffer],
      by simp [addAll, NewReplayBuffer], ?_⟩
    intro i hi
    rw [if_neg (by simp)]
    simp [addAll, NewReplayBuffer, List.getD_eq_getElem?_getD, List.getElem?_replicate, hi]
  | append_singleton xs x ih =>
    obtain ⟨hcap, hlen, hpos, hsize, hbuf⟩ := ih
    have hstep : addAll (NewReplayBuffer c) (xs ++ [x]) =
        ReplayBuffer.Add (addAll (NewReplayBuffer c) xs) x := by
      simp [addAll, List.foldl_append]
    rw [hstep]
    unfold ReplayBuffer.Add
    refine ⟨hcap, ?_, ?_, ?_, ?_⟩
    · simpa using hlen
    · rw [hpos, hcap]
      simp only [List.length_append, List.length_cons, List.length_nil]
      exact Nat.mod_add_mod xs.length c 1
    · rw [hsize, hcap]
      simp only [List.length_append, List.length_cons, List.length_nil]
      split <;> omega
    · intro i hi
      simp only []
      rw [hpos]
      by_cases heq : i = xs.length % c
      · rw [heq]
        have hmlt : xs.length % c < c := Nat.mod_lt _ hc
        have hset : ((addAll (NewReplayBuffer c) xs).buffer.set (xs.length % c) x).getD
            (xs.length % c) default = x := by
          simp [List.getD_eq_getElem?_getD, List.getElem?_set, hlen, hmlt]
        rw [hset]
        have hcond : xs.length % c < min (xs ++ [x]).length c := by
          have hle : xs.length % c ≤ xs.length := Nat.mod_le _ _
          simp only [List.length_append, List.length_cons, List.length_nil]
          omega
        rw [if_pos hcond]
        rw [show (xs ++ [x]).length = xs.length + 1 by simp]
        rw [lastSlotIdx_last xs.length c hc]
        rw [List.getD_eq_getElem?_getD, List.getElem?_append]
        simp
      · have hne2 : ((addAll (NewReplayBuffer c) xs).buffer.set (xs.length % c) x).getD
            i default = (addAll (NewReplayBuffer c) xs).buffer.getD i default := by
          simp [List.getD_eq_getElem?_getD, List.getElem?_set, heq, Ne.symm heq]
        rw [hne2, hbuf i hi]
        by_cases hlt : i < min xs.length c
        · rw [if_pos hlt,
            if_pos (by simp only [List.length_append, List.length_cons, List.length_nil]; omega)]
          have hin : i < xs.length := by omega
          obtain ⟨heq2, hlt2⟩ := lastSlotIdx_step xs.length c i hc hi hin heq
          rw [show (xs ++ [x]).length = xs.length + 1 by simp, heq2]
          rw [List.getD_eq_getElem?_getD, List.getD_eq_getElem?_getD, List.getElem?_append]
          rw [if_pos (by omega)]
        · rw [if_neg hlt]
          have hnc : xs.length < c := by omega
          have hmod : xs.length % c = xs.length := Nat.mod_eq_of_lt hnc
          have hgt : xs.length < i := by omega
          rw [if_neg (by simp only [List.length_append, List.length_cons, List.length_nil]; omega)]

/-- C8: the count of a fresh capacity-`c` buffer never exceeds `c` under
any sequence of `Add` calls; and after inserting `c + k` items (`k > 0`)
the buffer holds exactly the most recent `c` items — slot `i` holds the
item of the last insertion landing on it in wrap-around order, those
insertion indices all lie in the final window `[k, c+k)` (the oldest `k`
items are gone), and distinct slots hold distinct insertion indices. -/
theorem replay_capacity_and_wraparound (c k : Nat) (xs : List Experience) (hc : 0 < c) :
    (addAll (NewReplayBuffer c) xs).size ≤ c ∧
    (xs.length = c + k → 0 < k →
      (addAll (NewReplayBuffer c) xs).size = c ∧
      (∀ i, i < c →
        (addAll (NewReplayBuffer c) xs).buffer.getD i default =
          xs.getD (lastSlotIdx xs.length c i) default ∧
        k ≤ lastSlotIdx xs.length c i ∧ lastSlotIdx xs.length c i < xs.length) ∧
      (∀ i j, i < c → j < c → i ≠ j →
        lastSlotIdx xs.length c i ≠ lastSlotIdx xs.length c j)) := by
  obtain ⟨hcap, hlen, hpos, hsize, hbuf⟩ := addAll_invariant c hc xs
  constructor
  · rw [hsize]; omega
  · intro hn hk
    refine ⟨by rw [hsize]; omega, ?_, ?_⟩
    · intro i hi
      refine ⟨?_, ?_, ?_⟩
      · rw [hbuf i hi, if_pos (by omega)]
      · unfold lastSlotIdx
        have h1 : (xs.length - 1 - i) % c < c := Nat.mod_lt _ hc
        omega
      · unfold lastSlotIdx
        have h1 : (xs.length - 1 - i) % c < c := Nat.mod_lt _ hc
        omega
    · intro i j hi hj hij hcontra
      unfold lastSlotIdx at hcontra
      set a := xs.length - 1 - i with ha
      set b := xs.length - 1 - j with hb
      have hmi : a % c < c := Nat.mod_lt _ hc
      have hmj : b % c < c := Nat.mod_lt _ hc
      have hale : a % c ≤ a := Nat.mod_le _ _
      have hble : b % c ≤ b := Nat.mod_le _ _
      have hmeq : a % c = b % c := by omega
      rcases Nat.lt_or_ge a b with hlt | hge
      · have hdvd : c ∣ b - a := (Nat.modEq_iff_dvd' (le_of_lt hlt)).mp hmeq
        have hge2 := Nat.le_of_dvd (by omega) hdvd
        omega
      · have hlt2 : b < a := by omega
        have hdvd : c ∣ a - b := (Nat.modEq_iff_dvd' (le_of_lt hlt2)).mp hmeq.symm
        have hge2 := Nat.le_of_dvd (by omega) hdvd
        omega

/-- Witness for `replay_capacity_and_wraparound`: capacity 2, three
insertions — the count is 2 and each slot holds its wrap-around item. -/
theorem replay_wraparound_witness :
    (addAll (NewReplayBuffer 2) w8xs).size = 2 ∧
    (addAll (NewReplayBuffer 2) w8xs).buffer.getD 0 default =
      w8xs.getD (lastSlotIdx w8xs.length 2 0) default ∧
    (addAll (NewReplayBuffer 2) w8xs).buffer.getD 1 default =
      w8xs.getD (lastSlotIdx w8xs.length 2 1) default := by
  have h := (replay_capacity_and_wraparound 2 1 w8xs (by decide)).2 (by decide) (by decide)
  exact ⟨h.1, (h.2.1 0 (by decide)).1, (h.2.1 1 (by decide)).1⟩

/-- `NextHead` moves the head one step in the given direction, i.e. it is
the claim-side `specStep` on the head. -/
theorem nextHead_eq_specStep (s : Snake) (dir : Dir) :
    s.NextHead dir = s.Body.head?.map fun h => specStep h dir := by
  cases hh : s.Body.head? with
  | none => cases dir <;> simp [Snake.NextHead, hh]
  | some h =>
    cases dir <;>
      simp [Snake.NextHead, hh, specStep, Position.add, sub_eq_add_neg]

/-- The short-circuiting two-step danger check is the disjunction of the
two one-step checks. -/
theorem isDangerExtended_eq_or (s1 s2 : Position) (id : Fin 2) (st : GameState) :
    isDangerExtended s1 s2 id st = (isDanger s1 id st || isDanger s2 id st) := by
  unfold isDangerExtended
  cases isDanger s1 id st <;> simp

/-- C6: for every observation whose encoded agent is alive, entries 19-21
of the feature vector are exactly the two-step danger flags of the claim:
for each relative action, with `d` the turned direction, the flag is set
iff the one-step cell (head advanced along `d`) or the two-step cell (that
cell advanced along `d` again) is dangerous, short-circuiting at the first
dangerous step. -/
theorem encode_two_step_danger (state : GameState) (id : Fin 2) (v : List ℚ)
    (halive : (snakeAt state id).Alive = true)
    (hv : EncodeState state id = some v) :
    v.getD 19 0 = boolToFloat (specTwoStepFlag state id GoStraight) ∧
    v.getD 20 0 = boolToFloat (specTwoStepFlag state id TurnLeftA) ∧
    v.getD 21 0 = boolToFloat (specTwoStepFlag state id TurnRightA) := by
  unfold EncodeState at hv
  simp only [halive, Bool.true_eq_false, if_false] at hv
  cases hB : (snakeAt state id).Body with
  | nil => rw [hB] at hv; simp at hv
  | cons hd tl =>
    rw [hB] at hv
    simp only [nextHead_eq_specStep, hB, List.head?_cons, Option.map_some',
      Option.some_bind, Option.bind_eq_bind, mkTempSnake] at hv
    by_cases ho : (snakeAt state (otherId id)).Alive = true
    · cases ohB : (snakeAt state (otherId id)).Body with
      | nil => rw [ohB] at hv; simp [ho] at hv
      | cons oh otl =>
        rw [ohB] at hv
        simp only [ho, if_true, List.head?_cons, Option.map_some', Option.some_bind,
          Option.bind_eq_bind] at hv
        have hveq := (Option.some.inj hv).symm
        subst hveq
        have hr4 : List.range 4 = [0, 1, 2, 3] := rfl
        by_cases hfa : state.Food.Active = true <;>
          refine ⟨?_, ?_, ?_⟩ <;>
            simp [hfa, hr4, List.getD_eq_getElem?_getD, List.getElem?_append,
              specTwoStepFlag, ActionToDirection, GoStraight, TurnLeftA, TurnRightA,
              isDangerExtended_eq_or, hB, List.headD_cons]
    · have ho2 : (snakeAt state (otherId id)).Alive = false := by
        cases hA : (snakeAt state (otherId id)).Alive
        · rfl
        · exact absurd hA ho
      simp only [ho2, Bool.false_eq_true, if_false, Option.some_bind,
        Option.bind_eq_bind] at hv
      have hveq := (Option.some.inj hv).symm
      subst hveq
      have hr4 : List.range 4 = [0, 1, 2, 3] := rfl
      by_cases hfa : state.Food.Active = true <;>
        refine ⟨?_, ?_, ?_⟩ <;>
          simp [hfa, hr4, List.getD_eq_getElem?_getD, List.getElem?_append,
            specTwoStepFlag, ActionToDirection, GoStraight, TurnLeftA, TurnRightA,
            isDangerExtended_eq_or, hB, List.headD_cons]

/-- Witness for `encode_two_step_danger` on the concrete `witState`. -/
theorem encode_two_step_witness :
    EncodeState witState 0 = some witVec ∧
    witVec.getD 19 0 = boolToFloat (specTwoStepFlag witState 0 GoStraight) ∧
    witVec.getD 20 0 = boolToFloat (specTwoStepFlag witState 0 TurnLeftA) ∧
    witVec.getD 21 0 = boolToFloat (specTwoStepFlag witState 0 TurnRightA) := by
  have hv : EncodeState witState 0 = some witVec := by
    norm_num [witVec, witState, witSnakeA, witSnakeB, EncodeState, snakeAt, otherId,
      pairAt, Snake.NextHead, mkTempSnake, isDanger, isDangerExtended, IsDangerPosition,
      CheckWallCollision, Snake.ContainsPosition, ManhattanDistance, boolToFloat,
      StateSize, Position.add]
  obtain ⟨h1, h2, h3⟩ := encode_two_step_danger witState 0 witVec (by decide) hv
  exact ⟨hv, h1, h2, h3⟩
